import Mathlib

/-!
Verification of the causal social influence reward computation in
`Algorithms/ppo_causal.py` (sequential_social_dilemma_games).

The numeric pipeline is shallowly embedded over the real numbers.  Numpy
arrays are modelled as total functions from natural-number indices to `ℝ`
together with explicit dimension metadata, so that numpy's broadcasting
rules (a pair of dimensions is compatible when they are equal or one of
them is 1) and `np.tile`'s shape promotion are represented faithfully.
IEEE non-finite values (which `kl_div` inspects via `np.isfinite`) are
modelled by the four-constructor type `NpVal`; operations that can only
produce finite doubles are modelled directly in `ℝ`.  Floating point
rounding is abstracted to exact real arithmetic, and the max-shift inside
`scipy.special.softmax` (which cancels exactly in real arithmetic) is
dropped.  Scalar configuration values, which are exact Python ints/floats,
are modelled as `ℚ` so that the curriculum scheduler is fully computable;
they are cast into `ℝ` where they meet the reward stream.
-/

open scoped BigOperators

/-- IEEE-style extended value: a finite double, `+inf`, `-inf`, or `nan`.
Used to model the intermediate array of `kl_div`, whose entries can be
non-finite before the `np.isfinite` fallback zeroes them out. -/
inductive NpVal where
  | fin : ℝ → NpVal
  | pinf : NpVal
  | ninf : NpVal
  | nan : NpVal

/-- IEEE addition on extended values (`nan` absorbs; opposite infinities
give `nan`), used to model `np.sum` along the last axis in `kl_div`. -/
def NpVal.add : NpVal → NpVal → NpVal
  | .nan, _ => .nan
  | _, .nan => .nan
  | .pinf, .ninf => .nan
  | .ninf, .pinf => .nan
  | .pinf, _ => .pinf
  | _, .pinf => .pinf
  | .ninf, _ => .ninf
  | _, .ninf => .ninf
  | .fin x, .fin y => .fin (x + y)

/-- `np.isfinite` on an extended value. -/
def NpVal.isFinite : NpVal → Bool
  | .fin _ => true
  | _ => false

/-- Extract the real value of a finite extended value (junk 0 otherwise). -/
def NpVal.toReal : NpVal → ℝ
  | .fin x => x
  | _ => 0

/-- One element of `np.where(p != 0, p * np.log(p / q), 0)` from `kl_div`
(ppo_causal.py line 67), with IEEE semantics: when `p = 0` the `where`
selects the literal 0; when `p ≠ 0` and `q = 0`, `p / q` is `±inf` so the
product is `+inf` for `p > 0` and `nan` otherwise (log of a negative or
`-inf` argument is `nan`); when the quotient is negative its log is `nan`. -/
noncomputable def klTerm (p q : ℝ) : NpVal :=
  if p = 0 then .fin 0
  else if q = 0 then (if 0 < p then .pinf else .nan)
  else if 0 < p / q then .fin (p * Real.log (p / q)) else .nan

/-- A rank-2 numpy array: dimensions plus a total data function.  Values at
out-of-range indices are unconstrained junk. -/
structure Arr2 where
  d0 : ℕ
  d1 : ℕ
  data : ℕ → ℕ → ℝ

/-- A rank-3 numpy array. -/
structure Arr3 where
  d0 : ℕ
  d1 : ℕ
  d2 : ℕ
  data : ℕ → ℕ → ℕ → ℝ

/-- A rank-4 numpy array. -/
structure Arr4 where
  d0 : ℕ
  d1 : ℕ
  d2 : ℕ
  d3 : ℕ
  data : ℕ → ℕ → ℕ → ℕ → ℝ

/-- Numpy broadcast compatibility of one axis pair: equal, or one is 1. -/
def bcastOk (d e : ℕ) : Bool :=
  decide (d = e ∨ d = 1 ∨ e = 1)

/-- Broadcast result size of one axis pair. -/
def bcastDim (d e : ℕ) : ℕ := max d e

/-- Index selection under broadcasting: a size-1 axis is always read at 0. -/
def bsel (d i : ℕ) : ℕ := if d = 1 then 0 else i

/-- Elementwise binary numpy operation on rank-2 arrays with broadcasting;
incompatible shapes raise (modelled as `Except.error`). -/
def Arr2.binop (f : ℝ → ℝ → ℝ) (x y : Arr2) : Except String Arr2 :=
  if bcastOk x.d0 y.d0 && bcastOk x.d1 y.d1 then
    Except.ok ⟨bcastDim x.d0 y.d0, bcastDim x.d1 y.d1,
      fun b n => f (x.data (bsel x.d0 b) (bsel x.d1 n))
                   (y.data (bsel y.d0 b) (bsel y.d1 n))⟩
  else Except.error "operands could not be broadcast together"

/-- Elementwise binary numpy operation on rank-3 arrays with broadcasting. -/
def Arr3.binop (f : ℝ → ℝ → ℝ) (x y : Arr3) : Except String Arr3 :=
  if bcastOk x.d0 y.d0 && bcastOk x.d1 y.d1 && bcastOk x.d2 y.d2 then
    Except.ok ⟨bcastDim x.d0 y.d0, bcastDim x.d1 y.d1, bcastDim x.d2 y.d2,
      fun b n a => f (x.data (bsel x.d0 b) (bsel x.d1 n) (bsel x.d2 a))
                     (y.data (bsel y.d0 b) (bsel y.d1 n) (bsel y.d2 a))⟩
  else Except.error "operands could not be broadcast together"

/-- `scipy.special.softmax(x, axis=-1)` on a rank-2 array (exact reals). -/
noncomputable def softmaxLast2 (x : Arr2) : Arr2 :=
  ⟨x.d0, x.d1, fun b a =>
    Real.exp (x.data b a) / ∑ j in Finset.range x.d1, Real.exp (x.data b j)⟩

/-- `scipy.special.softmax(x, axis=-1)` on a rank-3 array. -/
noncomputable def softmaxLast3 (x : Arr3) : Arr3 :=
  ⟨x.d0, x.d1, x.d2, fun b n a =>
    Real.exp (x.data b n a) / ∑ j in Finset.range x.d2, Real.exp (x.data b n j)⟩

/-- `scipy.special.softmax(x, axis=-1)` on a rank-4 array. -/
noncomputable def softmaxLast4 (x : Arr4) : Arr4 :=
  ⟨x.d0, x.d1, x.d2, x.d3, fun b n oa a =>
    Real.exp (x.data b n oa a) / ∑ j in Finset.range x.d3, Real.exp (x.data b n oa j)⟩

/-- `x / x.sum(axis=1, keepdims=1)` on a rank-2 array (its last axis). -/
noncomputable def normalizeLast2 (x : Arr2) : Arr2 :=
  ⟨x.d0, x.d1, fun b a => x.data b a / ∑ j in Finset.range x.d1, x.data b j⟩

/-- `x / x.sum(axis=-1, keepdims=1)` on a rank-3 array. -/
noncomputable def normalizeLast3 (x : Arr3) : Arr3 :=
  ⟨x.d0, x.d1, x.d2, fun b n a => x.data b n a / ∑ j in Finset.range x.d2, x.data b n j⟩

/-- The row value `np.sum(np.where(p != 0, p * np.log(p / q), 0), axis=-1)`
of `kl_div` at outer index `(b, n)`, with `p` and `q` broadcast against
each other, as an IEEE extended value. -/
noncomputable def klRow (p q : Arr3) (b n : ℕ) : NpVal :=
  (List.range (bcastDim p.d2 q.d2)).foldr
    (fun a acc =>
      NpVal.add (klTerm (p.data (bsel p.d0 b) (bsel p.d1 n) (bsel p.d2 a))
                        (q.data (bsel q.d0 b) (bsel q.d1 n) (bsel q.d2 a))) acc)
    (NpVal.fin 0)

/-- Whether every in-range entry of the summed KL array is finite
(`np.all(np.isfinite(kl))`, ppo_causal.py line 70). -/
noncomputable def klAllFinite (p q : Arr3) : Bool :=
  (List.range (bcastDim p.d0 q.d0)).all fun b =>
    (List.range (bcastDim p.d1 q.d1)).all fun n => (klRow p q b n).isFinite

/-- `kl_div(p, q)` (ppo_causal.py lines 55-73): per outer index, the sum of
`p * log(p / q)` over the last axis with `p = 0` terms contributing 0; if
any in-range entry of the result is non-finite, the entire result is
replaced by `np.zeros(kl.shape)`.  The returned array therefore always
holds finite reals.  Shape-incompatible inputs raise. -/
noncomputable def kl_div (p q : Arr3) : Except String Arr2 :=
  if bcastOk p.d0 q.d0 && bcastOk p.d1 q.d1 && bcastOk p.d2 q.d2 then
    Except.ok ⟨bcastDim p.d0 q.d0, bcastDim p.d1 q.d1,
      fun b n => if klAllFinite p q then (klRow p q b n).toReal else 0⟩
  else Except.error "operands could not be broadcast together"

/-- The configuration dictionary entries consumed by the two mixins
(`CONFIG.update({...})`, ppo_causal.py lines 28-38). -/
structure Config where
  num_other_agents : ℕ
  moa_weight : ℚ
  train_moa_only_when_visible : Bool
  influence_reward_clip : ℚ
  influence_reward_weight : ℚ
  influence_curriculum_steps : ℚ
  influence_scaledown_start : ℚ
  influence_scaledown_end : ℚ
  influence_scaledown_final_val : ℚ
  influence_only_when_visible : Bool
  influence_divergence_measure : String

/-- The policy-level state assembled by `ConfigInitializerMixIn.__init__`
and `InfluenceScheduleMixIn.__init__` (ppo_causal.py lines 341-360). -/
structure Policy where
  train_moa_only_when_visible : Bool
  num_other_agents : ℕ
  moa_weight : ℚ
  influence_divergence_measure : String
  influence_only_when_visible : Bool
  influence_reward_clip : ℚ
  influence_reward_weight : ℚ
  influence_curriculum_steps : ℚ
  inf_scale_start : ℚ
  inf_scale_end : ℚ
  inf_scale_final_val : ℚ
  steps_processed : ℕ
  curr_influence_weight : ℚ

/-- `setup_mixins` as far as influence is concerned: both mixin
initializers copy configuration values onto the policy; the schedule mixin
additionally starts `steps_processed` at 0 and `curr_influence_weight` at
`influence_reward_weight` (ppo_causal.py lines 341-360, 433-440).  Note
that no validation of `influence_divergence_measure` happens here: any
string is stored verbatim. -/
def setupMixins (config : Config) : Policy :=
  { train_moa_only_when_visible := config.train_moa_only_when_visible
    num_other_agents := config.num_other_agents
    moa_weight := config.moa_weight
    influence_divergence_measure := config.influence_divergence_measure
    influence_only_when_visible := config.influence_only_when_visible
    influence_reward_clip := config.influence_reward_clip
    influence_reward_weight := config.influence_reward_weight
    influence_curriculum_steps := config.influence_curriculum_steps
    inf_scale_start := config.influence_scaledown_start
    inf_scale_end := config.influence_scaledown_end
    inf_scale_final_val := config.influence_scaledown_final_val
    steps_processed := 0
    curr_influence_weight := config.influence_reward_weight }

/-- `InfluenceScheduleMixIn.current_influence_curriculum_weight`
(ppo_causal.py lines 362-378): recompute `curr_influence_weight` from the
piecewise curriculum and store it on the policy. -/
def current_influence_curriculum_weight (policy : Policy) : Policy :=
  if (policy.steps_processed : ℚ) < policy.influence_curriculum_steps then
    let percent : ℚ := (policy.steps_processed : ℚ) / policy.influence_curriculum_steps
    { policy with curr_influence_weight := percent * policy.influence_reward_weight }
  else if policy.inf_scale_start < (policy.steps_processed : ℚ) then
    let percent : ℚ := ((policy.steps_processed : ℚ) - policy.inf_scale_start) /
      (policy.inf_scale_end - policy.inf_scale_start)
    let diff : ℚ := policy.influence_reward_weight - policy.inf_scale_final_val
    let scaled : ℚ := policy.influence_reward_weight - diff * percent
    { policy with curr_influence_weight := max policy.inf_scale_final_val scaled }
  else
    { policy with curr_influence_weight := policy.influence_reward_weight }

/-- One agent's trajectory (sample batch), restricted to the fields the
influence computation touches.  Arrays are total index functions under the
data-model invariant: `actions` is `[B]`, `action_logits` is `[B, A]`,
`counterfactual_actions` is `[B, N, A, A]` (for each other agent and each
hypothetical own action, logits over the other agent's actions),
`others_visibility` is `[B, N]`, with `B = obs.length`, `A = num_actions`
and `N` the policy's `num_other_agents`.  `total_influence` and
`reward_without_influence` model dictionary keys that the influence pass
writes. -/
structure Trajectory where
  obs : List ℝ
  num_actions : ℕ
  actions : ℕ → ℕ
  rewards : ℕ → ℝ
  dones : ℕ → Bool
  action_logits : ℕ → ℕ → ℝ
  counterfactual_actions : ℕ → ℕ → ℕ → ℕ → ℝ
  others_visibility : ℕ → ℕ → ℝ
  others_actions : ℕ → ℕ → ℕ
  all_actions : ℕ → ℕ → ℕ
  total_influence : ℕ → ℝ
  reward_without_influence : ℕ → ℝ

/-- `marginalize_predictions_over_own_actions` (ppo_causal.py lines
263-283).  `action_probs` is the renormalized softmax of the own action
logits; the counterfactual logits, reshaped to `[B, N, A, A]` (the reshape
is the identity under the data-model layout), are softmaxed along the last
axis and summed over the own-action axis (`axis=-2`); the result is
multiplied elementwise by `np.tile(action_probs, [1, N, 1])` — whose shape
per numpy tile promotion is `(1, N*B, A)` with entry `(0, j, a) ↦
action_probs[j % B, a]` — under broadcasting, then renormalized along the
final axis. -/
noncomputable def marginalize_predictions_over_own_actions
    (policy : Policy) (trajectory : Trajectory) : Except String Arr3 :=
  let B := trajectory.obs.length
  let A := trajectory.num_actions
  let action_probs : Arr2 := normalizeLast2 (softmaxLast2 ⟨B, A, trajectory.action_logits⟩)
  let counter_probs : Arr4 :=
    softmaxLast4 ⟨B, policy.num_other_agents, A, A, trajectory.counterfactual_actions⟩
  let marginal0 : Arr3 := ⟨B, policy.num_other_agents, A,
    fun b n a => ∑ oa in Finset.range A, counter_probs.data b n oa a⟩
  let tiled : Arr3 := ⟨1, policy.num_other_agents * B, A,
    fun _ j a => action_probs.data (j % B) a⟩
  match Arr3.binop (fun x y => x * y) marginal0 tiled with
  | Except.error e => Except.error e
  | Except.ok m1 => Except.ok (normalizeLast3 m1)

/-- The `true_probs` computation of `compute_influence_reward`
(ppo_causal.py lines 200-205): select from the counterfactual logits the
slice for the action actually taken at each step (`[traj_index, :,
actions, :]`, shape `[B, N, A]`), reshape (identity under the data-model
layout), softmax along the last axis, and renormalize. -/
noncomputable def true_probs_of (policy : Policy) (trajectory : Trajectory) : Arr3 :=
  let B := trajectory.obs.length
  let A := trajectory.num_actions
  normalizeLast3 (softmaxLast3 ⟨B, policy.num_other_agents, A,
    fun b n a => trajectory.counterfactual_actions b n (trajectory.actions b) a⟩)

/-- The `jsd` branch of `compute_influence_reward` (ppo_causal.py lines
213-216): `0.5 * kl_div(p, m) + 0.5 * kl_div(q, m)` with
`m = 0.5 * (p + q)`. -/
noncomputable def jsd_of (p q : Arr3) : Except String Arr2 :=
  match Arr3.binop (fun x y => x + y) p q with
  | Except.error e => Except.error e
  | Except.ok s =>
    let mean : Arr3 := ⟨s.d0, s.d1, s.d2, fun b n a => (1 / 2 : ℝ) * s.data b n a⟩
    match kl_div p mean with
    | Except.error e => Except.error e
    | Except.ok k1 =>
      match kl_div q mean with
      | Except.error e => Except.error e
      | Except.ok k2 =>
        Arr2.binop (fun x y => x + y)
          ⟨k1.d0, k1.d1, fun b n => (1 / 2 : ℝ) * k1.data b n⟩
          ⟨k2.d0, k2.d1, fun b n => (1 / 2 : ℝ) * k2.data b n⟩

/-- The divergence dispatch of `compute_influence_reward` (ppo_causal.py
lines 211-218): `kl` and `jsd` are recognized; any other configured
measure hits `sys.exit(...)`, modelled as an error carrying the
diagnostic. -/
noncomputable def influence_divergence (policy : Policy) (tp mp : Arr3) :
    Except String Arr2 :=
  match policy.influence_divergence_measure with
  | "kl" => kl_div tp mp
  | "jsd" => jsd_of tp mp
  | _ => Except.error "Please specify an influence divergence measure from [kl, jsd]"

/-- The `influence_per_agent_step` array of `compute_influence_reward`
(ppo_causal.py lines 210-226): the configured divergence between the
true and marginal predictions, multiplied elementwise by the visibility
matrix when `influence_only_when_visible` is set. -/
noncomputable def influence_per_agent_step (policy : Policy) (trajectory : Trajectory) :
    Except String Arr2 :=
  let B := trajectory.obs.length
  match marginalize_predictions_over_own_actions policy trajectory with
  | Except.error e => Except.error e
  | Except.ok marginal_probs =>
    match influence_divergence policy (true_probs_of policy trajectory) marginal_probs with
    | Except.error e => Except.error e
    | Except.ok ips =>
      if policy.influence_only_when_visible then
        Arr2.binop (fun x y => x * y) ips
          ⟨B, policy.num_other_agents, trajectory.others_visibility⟩
      else Except.ok ips

/-- `np.clip(x, lo, hi)`, which numpy computes as
`minimum(hi, maximum(x, lo))`. -/
noncomputable def npClip (x lo hi : ℝ) : ℝ := min (max x lo) hi

/-- The clipped per-step influence of `compute_influence_reward`
(ppo_causal.py lines 229-230): the per-agent array summed along its last
axis and clipped to `[-influence_reward_clip, influence_reward_clip]`. -/
noncomputable def influence_of (policy : Policy) (ips : Arr2) : ℕ → ℝ := fun b =>
  npClip (∑ n in Finset.range ips.d1, ips.data b n)
    (-(policy.influence_reward_clip : ℝ)) (policy.influence_reward_clip : ℝ)

/-- `compute_influence_reward` (ppo_causal.py lines 194-242): sum the
per-agent influence over the last axis, clip to
`[-influence_reward_clip, influence_reward_clip]`, advance
`steps_processed` by the trajectory length, read the stored
`curr_influence_weight`, and write `total_influence`,
`reward_without_influence` and the augmented `rewards` onto the
trajectory.  Returns the updated policy state and trajectory. -/
noncomputable def compute_influence_reward (policy : Policy) (trajectory : Trajectory) :
    Except String (Policy × Trajectory) :=
  match influence_per_agent_step policy trajectory with
  | Except.error e => Except.error e
  | Except.ok ips =>
    let influence : ℕ → ℝ := influence_of policy ips
    let policy' := { policy with
      steps_processed := policy.steps_processed + trajectory.obs.length }
    let inf_weight := policy.curr_influence_weight
    let trajectory' := { trajectory with
      total_influence := influence
      reward_without_influence := trajectory.rewards
      rewards := fun b => trajectory.rewards b + influence b * (inf_weight : ℝ) }
    Except.ok (policy', trajectory')

/-- Modelled from the spec claim C1's wording, for comparison against the
source implementation: the marginal prediction as the normalization along
the last axis of the own-action-probability-weighted sum of the
counterfactual probabilities,
`marginal[b,n,:] = normalize(Σ_oa action_probs[b,oa] * counterfactual_probs[b,n,oa,:])`,
where `action_probs` and `counterfactual_probs` are produced exactly as in
the source front end (renormalized softmax of the own logits, softmax of
the counterfactual logits along the last axis). -/
noncomputable def marginal_spec_formula (policy : Policy) (trajectory : Trajectory) : Arr3 :=
  let B := trajectory.obs.length
  let A := trajectory.num_actions
  let action_probs : Arr2 := normalizeLast2 (softmaxLast2 ⟨B, A, trajectory.action_logits⟩)
  let counter_probs : Arr4 :=
    softmaxLast4 ⟨B, policy.num_other_agents, A, A, trajectory.counterfactual_actions⟩
  let weighted : Arr3 := ⟨B, policy.num_other_agents, A,
    fun b n a => ∑ oa in Finset.range A, action_probs.data b oa * counter_probs.data b n oa a⟩
  normalizeLast3 weighted

/-- A concrete configuration with the repository's default influence
values (`CONFIG.update`, ppo_causal.py lines 28-38) and one other agent. -/
def configKl : Config :=
  { num_other_agents := 1
    moa_weight := 10
    train_moa_only_when_visible := true
    influence_reward_clip := 10
    influence_reward_weight := 1
    influence_curriculum_steps := 10000000
    influence_scaledown_start := 100000000
    influence_scaledown_end := 300000000
    influence_scaledown_final_val := 1 / 2
    influence_only_when_visible := true
    influence_divergence_measure := "kl" }

/-- The same configuration with an unrecognized divergence measure. -/
def configFoo : Config := { configKl with influence_divergence_measure := "foo" }

/-- Policy state produced by setup from the default configuration. -/
def policyKl : Policy := setupMixins configKl

/-- Policy state with a short 100-step ramp-up curriculum, fresh from
setup (`steps_processed = 0`, `curr_influence_weight = 1`). -/
def policyRamp : Policy := setupMixins { configKl with influence_curriculum_steps := 100 }

/-- A concrete one-step trajectory (`B = 1`, `N = 1`, `A = 2`).  The own
action logits are `(0, ln 3)`, so the own action distribution is
`(1/4, 3/4)`; the counterfactual logits are `(0, 0)` under own action 0
(other-agent distribution `(1/2, 1/2)`) and `(0, ln 3)` under own action 1
(other-agent distribution `(1/4, 3/4)`). -/
noncomputable def trajA : Trajectory :=
  { obs := [0]
    num_actions := 2
    actions := fun _ => 0
    rewards := fun _ => 1
    dones := fun _ => false
    action_logits := fun _ a => if a = 0 then 0 else Real.log 3
    counterfactual_actions := fun _ _ oa a =>
      if oa = 0 then 0 else if a = 0 then 0 else Real.log 3
    others_visibility := fun _ _ => 1
    others_actions := fun _ _ => 0
    all_actions := fun _ _ => 0
    total_influence := fun _ => 0
    reward_without_influence := fun _ => 0 }

/-- The same data as a two-step trajectory (`B = 2`). -/
noncomputable def trajB : Trajectory := { trajA with obs := [0, 0] }

/-- The one-step trajectory with an all-zero visibility matrix. -/
noncomputable def trajZeroVis : Trajectory := { trajA with others_visibility := fun _ _ => 0 }

/-- A `[1, 2, 2]` array whose two rows are both `(1, 0)`. -/
noncomputable def arrP : Arr3 := ⟨1, 2, 2, fun _ _ a => if a = 0 then 1 else 0⟩

/-- A `[1, 2, 2]` array with rows `(0, 1)` and `(1/2, 1/2)`: against
`arrP`, the first row's KL sum is `+inf` (a `p > 0` term divides by
`q = 0`) while the second row's KL sum is the finite `ln 2`. -/
noncomputable def arrQ : Arr3 :=
  ⟨1, 2, 2, fun _ n a => if n = 0 then (if a = 0 then 0 else 1) else (1 / 2 : ℝ)⟩

/-- A `[1, 1, 2]` array of distribution rows `(1, 0)`. -/
noncomputable def distP : Arr3 := ⟨1, 1, 2, fun _ _ a => if a = 0 then 1 else 0⟩

/-- A `[1, 1, 2]` array of distribution rows `(1/2, 1/2)`. -/
noncomputable def distQ : Arr3 := ⟨1, 1, 2, fun _ _ _ => (1 / 2 : ℝ)⟩

/-- Policy with ramp-up horizon 100 and a 100→300 scale-down window to the
floor 1/2 (the spec's curriculum test constants). -/
def policyDown : Policy := setupMixins
  { configKl with
    influence_curriculum_steps := 100
    influence_scaledown_start := 100
    influence_scaledown_end := 300
    influence_scaledown_final_val := 1 / 2 }

/-- The finite value of one summand of the KL sum, with the `np.where`
convention that `p = 0` terms contribute 0. -/
noncomputable def klValue (p q : ℝ) : ℝ :=
  if p = 0 then 0 else p * Real.log (p / q)

/-- In-range indices are read unchanged under broadcasting. -/
theorem bsel_lt {d i : ℕ} (h : i < d) : bsel d i = i := by
  unfold bsel
  split
  · omega
  · rfl

/-- An `NpVal` sum is finite exactly when both summands are. -/
theorem NpVal.add_isFinite_iff (u v : NpVal) :
    (NpVal.add u v).isFinite = true ↔ u.isFinite = true ∧ v.isFinite = true := by
  cases u <;> cases v <;> simp [NpVal.add, NpVal.isFinite]

/-- A finite `NpVal` is a `fin`. -/
theorem NpVal.eq_fin_of_isFinite {u : NpVal} (h : u.isFinite = true) :
    u = NpVal.fin u.toReal := by
  cases u <;> simp_all [NpVal.isFinite, NpVal.toReal]

/-- Folding IEEE addition over finitely many finite values yields the
finite real sum. -/
theorem foldr_add_fin (g : ℕ → NpVal) :
    ∀ (k : ℕ) (c : ℝ), (∀ a, a < k → (g a).isFinite = true) →
      (List.range k).foldr (fun a acc => NpVal.add (g a) acc) (NpVal.fin c) =
        NpVal.fin ((∑ a in Finset.range k, (g a).toReal) + c) := by
  intro k
  induction k with
  | zero => intro c _; simp
  | succ k ih =>
    intro c h
    rw [List.range_succ, List.foldr_append]
    obtain ⟨x, hx⟩ : ∃ x, g k = NpVal.fin x := by
      have hfin := h k (Nat.lt_succ_self k)
      cases hgk : g k <;> simp_all [NpVal.isFinite]
    have hxval : (g k).toReal = x := by rw [hx]; rfl
    have hstep : List.foldr (fun a acc => NpVal.add (g a) acc) (NpVal.fin c) [k] =
        NpVal.fin (x + c) := by
      simp only [List.foldr]
      rw [hx]
      rfl
    rw [hstep, ih (x + c) (fun a ha => h a (Nat.lt_succ_of_lt ha))]
    congr 1
    rw [Finset.sum_range_succ, hxval]
    ring

/-- Claim C8: `current_influence_curriculum_weight` computes the piecewise
curriculum: linear ramp `influence_reward_weight * (steps_processed /
influence_curriculum_steps)` while `steps_processed <
influence_curriculum_steps`; for `steps_processed > inf_scale_start` the
clamped linear decay `max(inf_scale_final_val, influence_reward_weight -
(influence_reward_weight - inf_scale_final_val) * (steps_processed -
inf_scale_start) / (inf_scale_end - inf_scale_start))`; otherwise the full
`influence_reward_weight`.  Concretely: weight 1/2 at step 50 and 0 at
step 0 of a 100-step ramp with weight 1, and weights 3/4, 1/2, 1/2 at
steps 200, 300, 400 of a 100→300 scale-down to floor 1/2. -/
theorem current_influence_curriculum_weight_piecewise :
    (∀ policy : Policy,
      (current_influence_curriculum_weight policy).curr_influence_weight =
        if (policy.steps_processed : ℚ) < policy.influence_curriculum_steps then
          policy.influence_reward_weight *
            ((policy.steps_processed : ℚ) / policy.influence_curriculum_steps)
        else if policy.inf_scale_start < (policy.steps_processed : ℚ) then
          max policy.inf_scale_final_val
            (policy.influence_reward_weight -
              (policy.influence_reward_weight - policy.inf_scale_final_val) *
                ((policy.steps_processed : ℚ) - policy.inf_scale_start) /
                (policy.inf_scale_end - policy.inf_scale_start))
        else policy.influence_reward_weight) ∧
    (current_influence_curriculum_weight
      { policyRamp with steps_processed := 50 }).curr_influence_weight = 1 / 2 ∧
    (current_influence_curriculum_weight policyRamp).curr_influence_weight = 0 ∧
    (current_influence_curriculum_weight
      { policyDown with steps_processed := 200 }).curr_influence_weight = 3 / 4 ∧
    (current_influence_curriculum_weight
      { policyDown with steps_processed := 300 }).curr_influence_weight = 1 / 2 ∧
    (current_influence_curriculum_weight
      { policyDown with steps_processed := 400 }).curr_influence_weight = 1 / 2 := by
  refine ⟨?_,
    by norm_num [current_influence_curriculum_weight, policyRamp, policyDown,
      setupMixins, configKl, max_def],
    by norm_num [current_influence_curriculum_weight, policyRamp, policyDown,
      setupMixins, configKl, max_def],
    by norm_num [current_influence_curriculum_weight, policyRamp, policyDown,
      setupMixins, configKl, max_def],
    by norm_num [current_influence_curriculum_weight, policyRamp, policyDown,
      setupMixins, configKl, max_def],
    by norm_num [current_influence_curriculum_weight, policyRamp, policyDown,
      setupMixins, configKl, max_def]⟩
  intro policy
  unfold current_influence_curriculum_weight
  split
  · simp [mul_comm]
  · split
    · simp only
      congr 1
      ring
    · rfl

/-- Success inversion for `compute_influence_reward`: on success the
result is exactly the policy with its step counter advanced and the
trajectory with the three influence fields written. -/
theorem compute_influence_reward_ok {policy : Policy} {trajectory : Trajectory}
    {r : Policy × Trajectory}
    (h : compute_influence_reward policy trajectory = Except.ok r) :
    ∃ ips, influence_per_agent_step policy trajectory = Except.ok ips ∧
      r.1 = { policy with
        steps_processed := policy.steps_processed + trajectory.obs.length } ∧
      r.2 = { trajectory with
        total_influence := influence_of policy ips
        reward_without_influence := trajectory.rewards
        rewards := fun b => trajectory.rewards b +
          influence_of policy ips b * (policy.curr_influence_weight : ℝ) } := by
  unfold compute_influence_reward at h
  cases hips : influence_per_agent_step policy trajectory with
  | error e =>
    rw [hips] at h
    exact absurd h (by simp)
  | ok ips =>
    rw [hips] at h
    simp only [Except.ok.injEq] at h
    exact ⟨ips, rfl, by rw [← h], by rw [← h]⟩

/-- Claim C10 (frame effect): a successful `compute_influence_reward` call
only writes the trajectory fields `total_influence`,
`reward_without_influence` and `rewards`, and only advances the policy's
`steps_processed` counter by the trajectory length; every other trajectory
field and every other policy field is returned unchanged. -/
theorem compute_influence_reward_frame (policy : Policy) (trajectory : Trajectory)
    (r : Policy × Trajectory)
    (h : compute_influence_reward policy trajectory = Except.ok r) :
    r.2.obs = trajectory.obs ∧
    r.2.num_actions = trajectory.num_actions ∧
    r.2.actions = trajectory.actions ∧
    r.2.dones = trajectory.dones ∧
    r.2.action_logits = trajectory.action_logits ∧
    r.2.counterfactual_actions = trajectory.counterfactual_actions ∧
    r.2.others_visibility = trajectory.others_visibility ∧
    r.2.others_actions = trajectory.others_actions ∧
    r.2.all_actions = trajectory.all_actions ∧
    r.1.steps_processed = policy.steps_processed + trajectory.obs.length ∧
    r.1.train_moa_only_when_visible = policy.train_moa_only_when_visible ∧
    r.1.num_other_agents = policy.num_other_agents ∧
    r.1.moa_weight = policy.moa_weight ∧
    r.1.influence_divergence_measure = policy.influence_divergence_measure ∧
    r.1.influence_only_when_visible = policy.influence_only_when_visible ∧
    r.1.influence_reward_clip = policy.influence_reward_clip ∧
    r.1.influence_reward_weight = policy.influence_reward_weight ∧
    r.1.influence_curriculum_steps = policy.influence_curriculum_steps ∧
    r.1.inf_scale_start = policy.inf_scale_start ∧
    r.1.inf_scale_end = policy.inf_scale_end ∧
    r.1.inf_scale_final_val = policy.inf_scale_final_val ∧
    r.1.curr_influence_weight = policy.curr_influence_weight := by
  obtain ⟨ips, _, h1, h2⟩ := compute_influence_reward_ok h
  rw [h1, h2]
  exact ⟨rfl, rfl, rfl, rfl, rfl, rfl, rfl, rfl, rfl, rfl, rfl, rfl, rfl, rfl, rfl,
    rfl, rfl, rfl, rfl, rfl, rfl, rfl⟩

/-- Witness for claim C10 at a concrete successful call. -/
theorem compute_influence_reward_frame_witness :
    ∃ r, compute_influence_reward policyKl trajA = Except.ok r ∧
      r.2.obs = trajA.obs ∧ r.2.action_logits = trajA.action_logits ∧
      r.1.steps_processed = policyKl.steps_processed + trajA.obs.length ∧
      r.1.curr_influence_weight = policyKl.curr_influence_weight := by
  obtain ⟨r, hr⟩ : ∃ r, compute_influence_reward policyKl trajA = Except.ok r := ⟨_, rfl⟩
  obtain ⟨ho, _, _, _, hal, _, _, _, _, hsp, _, _, _, _, _, _, _, _, _, _, _, hcw⟩ :=
    compute_influence_reward_frame policyKl trajA r hr
  exact ⟨r, hr, ho, hal, hsp, hcw⟩

/-- Claim C6: on a successful call, `total_influence` is the per-agent
influence array (divergence after the optional visibility masking) summed
along its last axis and clipped to the symmetric interval
`[-influence_reward_clip, +influence_reward_clip]` (so its magnitude is
bounded by the clip when the clip is non-negative);
`reward_without_influence` retains the original rewards; and the new
rewards are the original plus `curr_influence_weight` times the clipped
total influence, at every step. -/
theorem compute_influence_reward_sum_clip_inject (policy : Policy)
    (trajectory : Trajectory) (r : Policy × Trajectory)
    (h : compute_influence_reward policy trajectory = Except.ok r)
    (hclip : 0 ≤ policy.influence_reward_clip) :
    ∃ ips, influence_per_agent_step policy trajectory = Except.ok ips ∧
      (∀ b, r.2.total_influence b =
        npClip (∑ n in Finset.range ips.d1, ips.data b n)
          (-(policy.influence_reward_clip : ℝ)) (policy.influence_reward_clip : ℝ)) ∧
      (∀ b, |r.2.total_influence b| ≤ (policy.influence_reward_clip : ℝ)) ∧
      (∀ b, r.2.reward_without_influence b = trajectory.rewards b) ∧
      (∀ b, r.2.rewards b = r.2.reward_without_influence b +
        (policy.curr_influence_weight : ℝ) * r.2.total_influence b) := by
  obtain ⟨ips, hips, _, h2⟩ := compute_influence_reward_ok h
  have hc : (0 : ℝ) ≤ (policy.influence_reward_clip : ℝ) := by exact_mod_cast hclip
  refine ⟨ips, hips, ?_, ?_, ?_, ?_⟩
  · intro b
    rw [h2]
    rfl
  · intro b
    rw [h2]
    show |influence_of policy ips b| ≤ _
    unfold influence_of npClip
    rw [abs_le]
    exact ⟨le_min (le_max_right _ _) (neg_le_self hc), min_le_right _ _⟩
  · intro b
    rw [h2]
  · intro b
    rw [h2]
    show trajectory.rewards b + influence_of policy ips b * _ = _
    dsimp only
    ring

/-- Witness for claim C6 at a concrete successful call. -/
theorem compute_influence_reward_sum_clip_inject_witness :
    (0 : ℚ) ≤ policyKl.influence_reward_clip ∧
    ∃ r, compute_influence_reward policyKl trajA = Except.ok r ∧
      ∃ ips, influence_per_agent_step policyKl trajA = Except.ok ips ∧
        (∀ b, |r.2.total_influence b| ≤ (policyKl.influence_reward_clip : ℝ)) ∧
        (∀ b, r.2.rewards b = r.2.reward_without_influence b +
          (policyKl.curr_influence_weight : ℝ) * r.2.total_influence b) := by
  have hclip : (0 : ℚ) ≤ policyKl.influence_reward_clip := by
    norm_num [policyKl, setupMixins, configKl]
  refine ⟨hclip, ?_⟩
  obtain ⟨r, hr⟩ : ∃ r, compute_influence_reward policyKl trajA = Except.ok r := ⟨_, rfl⟩
  obtain ⟨ips, hips, _, habs, _, hrew⟩ :=
    compute_influence_reward_sum_clip_inject policyKl trajA r hr hclip
  exact ⟨r, hr, ips, hips, habs, hrew⟩

/-- Claim C7: with `influence_only_when_visible` set, a successfully
computed per-agent influence array is zero at every pair whose broadcast-
resolved visibility entry is zero, and the summed influence of a step
whose visibility row is all zero is exactly zero, regardless of the
divergence magnitudes. -/
theorem influence_masking_zero (policy : Policy) (trajectory : Trajectory) (ips : Arr2)
    (hvis : policy.influence_only_when_visible = true)
    (h : influence_per_agent_step policy trajectory = Except.ok ips) :
    (∀ b n, trajectory.others_visibility (bsel trajectory.obs.length b)
        (bsel policy.num_other_agents n) = 0 → ips.data b n = 0) ∧
    (∀ b, (∀ k, trajectory.others_visibility (bsel trajectory.obs.length b) k = 0) →
      ∑ n in Finset.range ips.d1, ips.data b n = 0) := by
  unfold influence_per_agent_step at h
  cases hm : marginalize_predictions_over_own_actions policy trajectory with
  | error e =>
    simp only [hm] at h
    exact absurd h (by simp)
  | ok marginal_probs =>
    simp only [hm] at h
    cases hd : influence_divergence policy (true_probs_of policy trajectory)
        marginal_probs with
    | error e =>
      simp only [hd] at h
      exact absurd h (by simp)
    | ok ips0 =>
      simp only [hd, hvis, if_true] at h
      unfold Arr2.binop at h
      split at h
      · simp only [Except.ok.injEq] at h
        have hdata : ∀ b n, ips.data b n =
            ips0.data (bsel ips0.d0 b) (bsel ips0.d1 n) *
              trajectory.others_visibility (bsel trajectory.obs.length b)
                (bsel policy.num_other_agents n) := by
          intro b n
          rw [← h]
        constructor
        · intro b n hz
          rw [hdata b n, hz, mul_zero]
        · intro b hall
          refine Finset.sum_eq_zero fun n _ => ?_
          rw [hdata b n, hall (bsel policy.num_other_agents n), mul_zero]
      · exact absurd h (by simp)

/-- Witness for claim C7: with the default policy and an all-zero
visibility matrix, every per-agent entry and the summed influence of step
0 are exactly zero. -/
theorem influence_masking_zero_witness :
    policyKl.influence_only_when_visible = true ∧
    ∃ ips, influence_per_agent_step policyKl trajZeroVis = Except.ok ips ∧
      ips.data 0 0 = 0 ∧ ∑ n in Finset.range ips.d1, ips.data 0 n = 0 := by
  obtain ⟨ips, hips⟩ :
      ∃ ips, influence_per_agent_step policyKl trajZeroVis = Except.ok ips := ⟨_, rfl⟩
  obtain ⟨h1, h2⟩ := influence_masking_zero policyKl trajZeroVis ips rfl hips
  exact ⟨rfl, ips, hips, h1 0 0 rfl, h2 0 (fun k => rfl)⟩

/-- Claim C2 (refuted; curriculum weight is read, not recomputed):
`compute_influence_reward` multiplies the stored `curr_influence_weight`
into the rewards and leaves it unchanged —
`current_influence_curriculum_weight` is never invoked.  Concretely, for a
fresh policy with `influence_reward_weight = 1` and a 100-step ramp-up
curriculum at counter 0, processing a 1-step trajectory applies weight 1,
while the recomputed curriculum weight is 0 at the counter seen at call
time and 1/100 after the counter advance. -/
theorem influence_weight_read_not_recomputed :
    ∃ r, compute_influence_reward policyRamp trajA = Except.ok r ∧
      r.1.curr_influence_weight = policyRamp.curr_influence_weight ∧
      policyRamp.curr_influence_weight = 1 ∧
      (∀ b, r.2.rewards b = trajA.rewards b + r.2.total_influence b * ((1 : ℚ) : ℝ)) ∧
      (current_influence_curriculum_weight policyRamp).curr_influence_weight = 0 ∧
      (current_influence_curriculum_weight r.1).curr_influence_weight = 1 / 100 := by
  obtain ⟨r, hr⟩ : ∃ r, compute_influence_reward policyRamp trajA = Except.ok r := ⟨_, rfl⟩
  obtain ⟨ips, hips, h1, h2⟩ := compute_influence_reward_ok hr
  refine ⟨r, hr, by rw [h1], rfl, ?_, ?_, ?_⟩
  · intro b
    rw [h2]
    rfl
  · norm_num [current_influence_curriculum_weight, policyRamp, setupMixins, configKl]
  · rw [h1]
    norm_num [current_influence_curriculum_weight, policyRamp, setupMixins, configKl,
      trajA]

/-- Dispatch on an unrecognized divergence measure hits the `sys.exit`
diagnostic (ppo_causal.py lines 217-218). -/
theorem influence_divergence_unknown (policy : Policy) (tp mp : Arr3)
    (h1 : policy.influence_divergence_measure ≠ "kl")
    (h2 : policy.influence_divergence_measure ≠ "jsd") :
    influence_divergence policy tp mp =
      Except.error "Please specify an influence divergence measure from [kl, jsd]" := by
  unfold influence_divergence
  split
  · rename_i heq
    exact absurd heq h1
  · rename_i heq
    exact absurd heq h2
  · rfl

/-- With an unrecognized measure, processing a trajectory reaches the
diagnostic only after the marginalization step has succeeded. -/
theorem compute_influence_reward_unknown_measure (policy : Policy)
    (trajectory : Trajectory) (m : Arr3)
    (h1 : policy.influence_divergence_measure ≠ "kl")
    (h2 : policy.influence_divergence_measure ≠ "jsd")
    (hm : marginalize_predictions_over_own_actions policy trajectory = Except.ok m) :
    compute_influence_reward policy trajectory =
      Except.error "Please specify an influence divergence measure from [kl, jsd]" := by
  have hstep : influence_per_agent_step policy trajectory =
      Except.error "Please specify an influence divergence measure from [kl, jsd]" := by
    simp only [influence_per_agent_step, hm,
      influence_divergence_unknown policy _ m h1 h2]
  simp only [compute_influence_reward, hstep]

/-- Claim C3 (corrected): setup does not validate the divergence measure —
`ConfigInitializerMixIn` stores the unrecognized string verbatim and
succeeds — and the fatal diagnostic is raised inside
`compute_influence_reward` while a trajectory is being processed (after
its marginalization has been computed), not at setup. -/
theorem unknown_measure_fails_during_processing (config : Config)
    (trajectory : Trajectory) (m : Arr3)
    (h1 : config.influence_divergence_measure ≠ "kl")
    (h2 : config.influence_divergence_measure ≠ "jsd")
    (hm : marginalize_predictions_over_own_actions (setupMixins config) trajectory =
      Except.ok m) :
    (setupMixins config).influence_divergence_measure =
      config.influence_divergence_measure ∧
    compute_influence_reward (setupMixins config) trajectory =
      Except.error "Please specify an influence divergence measure from [kl, jsd]" :=
  ⟨rfl, compute_influence_reward_unknown_measure (setupMixins config) trajectory m h1 h2 hm⟩

/-- Counterexample to claim C3 as stated: with the measure `"foo"`, setup
succeeds and stores the bogus measure; the marginalization over the
trajectory's data is still performed; and the failure is the result of
`compute_influence_reward` on the trajectory, i.e. it happens during — not
before — trajectory processing. -/
theorem unknown_measure_counterexample :
    (setupMixins configFoo).influence_divergence_measure = "foo" ∧
    (∃ m, marginalize_predictions_over_own_actions (setupMixins configFoo) trajA =
      Except.ok m) ∧
    compute_influence_reward (setupMixins configFoo) trajA =
      Except.error "Please specify an influence divergence measure from [kl, jsd]" := by
  obtain ⟨m, hm⟩ : ∃ m, marginalize_predictions_over_own_actions (setupMixins configFoo)
      trajA = Except.ok m := ⟨_, rfl⟩
  exact ⟨rfl, ⟨m, hm⟩,
    compute_influence_reward_unknown_measure _ trajA m (by decide) (by decide) hm⟩

/-- Witness for the amended claim C3 at the concrete configuration. -/
theorem unknown_measure_fails_during_processing_witness :
    configFoo.influence_divergence_measure ≠ "kl" ∧
    configFoo.influence_divergence_measure ≠ "jsd" ∧
    ∃ m, marginalize_predictions_over_own_actions (setupMixins configFoo) trajA =
        Except.ok m ∧
      (setupMixins configFoo).influence_divergence_measure =
        configFoo.influence_divergence_measure ∧
      compute_influence_reward (setupMixins configFoo) trajA =
        Except.error "Please specify an influence divergence measure from [kl, jsd]" := by
  obtain ⟨m, hm⟩ : ∃ m, marginalize_predictions_over_own_actions (setupMixins configFoo)
      trajA = Except.ok m := ⟨_, rfl⟩
  obtain ⟨ha, hb⟩ :=
    unknown_measure_fails_during_processing configFoo trajA m (by decide) (by decide) hm
  exact ⟨by decide, by decide, m, hm, ha, hb⟩

/-- If a fold of IEEE additions over a list of terms is finite, every term
in the list is finite. -/
theorem foldr_add_isFinite_list (g : ℕ → NpVal) (l : List ℕ) (c : ℝ)
    (h : (l.foldr (fun a acc => NpVal.add (g a) acc) (NpVal.fin c)).isFinite = true) :
    ∀ a ∈ l, (g a).isFinite = true := by
  induction l with
  | nil => intro a ha; cases ha
  | cons x xs ih =>
    simp only [List.foldr] at h
    rw [NpVal.add_isFinite_iff] at h
    intro a ha
    rcases List.mem_cons.mp ha with rfl | hmem
    · exact h.1
    · exact ih h.2 a hmem

/-- A finite `klTerm` is the `fin` of the zero-convention value. -/
theorem klTerm_eq_of_isFinite {p q : ℝ} (h : (klTerm p q).isFinite = true) :
    klTerm p q = NpVal.fin (klValue p q) := by
  unfold klTerm at h ⊢
  unfold klValue
  split_ifs at h ⊢ <;> simp_all [NpVal.isFinite]

/-- A finite KL row is the `fin` of the sum of the zero-convention term
values along the broadcast last axis. -/
theorem klRow_eq_fin_of_finite (p q : Arr3) (b n : ℕ)
    (h : (klRow p q b n).isFinite = true) :
    klRow p q b n = NpVal.fin (∑ a in Finset.range (bcastDim p.d2 q.d2),
      klValue (p.data (bsel p.d0 b) (bsel p.d1 n) (bsel p.d2 a))
        (q.data (bsel q.d0 b) (bsel q.d1 n) (bsel q.d2 a))) := by
  unfold klRow at h ⊢
  have hall : ∀ a, a < bcastDim p.d2 q.d2 →
      (klTerm (p.data (bsel p.d0 b) (bsel p.d1 n) (bsel p.d2 a))
        (q.data (bsel q.d0 b) (bsel q.d1 n) (bsel q.d2 a))).isFinite = true := by
    intro a ha
    exact foldr_add_isFinite_list _ _ 0 h _ (List.mem_range.mpr ha)
  rw [foldr_add_fin _ _ 0 hall, add_zero]
  congr 1
  refine Finset.sum_congr rfl fun a ha => ?_
  rw [klTerm_eq_of_isFinite (hall a (Finset.mem_range.mp ha))]
  rfl

/-- `klAllFinite` holds exactly when every in-range row is finite. -/
theorem klAllFinite_iff (p q : Arr3) : klAllFinite p q = true ↔
    ∀ b, b < bcastDim p.d0 q.d0 → ∀ n, n < bcastDim p.d1 q.d1 →
      (klRow p q b n).isFinite = true := by
  unfold klAllFinite
  simp [List.all_eq_true, List.mem_range]

/-- Claim C4: for identically shaped inputs, `kl_div` succeeds and
returns, per outer index, the sum over the last axis of `p * log(p / q)`
with `p = 0` terms contributing 0 — except that if any in-range entry of
that result is non-finite, the entire returned tensor is zero.  Either
way every returned entry is a (finite) real. -/
theorem kl_div_characterization (p q : Arr3)
    (hd0 : p.d0 = q.d0) (hd1 : p.d1 = q.d1) (hd2 : p.d2 = q.d2)
    (hp : ∀ b n a, 0 ≤ p.data b n a) (hq : ∀ b n a, 0 ≤ q.data b n a) :
    ∃ out, kl_div p q = Except.ok out ∧
      out.d0 = bcastDim p.d0 q.d0 ∧ out.d1 = bcastDim p.d1 q.d1 ∧
      (klAllFinite p q = true →
        ∀ b, b < bcastDim p.d0 q.d0 → ∀ n, n < bcastDim p.d1 q.d1 →
          out.data b n = ∑ a in Finset.range (bcastDim p.d2 q.d2),
            klValue (p.data (bsel p.d0 b) (bsel p.d1 n) (bsel p.d2 a))
              (q.data (bsel q.d0 b) (bsel q.d1 n) (bsel q.d2 a))) ∧
      (klAllFinite p q = false → ∀ b n, out.data b n = 0) := by
  have hcond : (bcastOk p.d0 q.d0 && bcastOk p.d1 q.d1 && bcastOk p.d2 q.d2) = true := by
    simp [bcastOk, hd0, hd1, hd2]
  have hok : kl_div p q = Except.ok ⟨bcastDim p.d0 q.d0, bcastDim p.d1 q.d1,
      fun b n => if klAllFinite p q then (klRow p q b n).toReal else 0⟩ := by
    unfold kl_div
    rw [if_pos hcond]
  refine ⟨_, hok, rfl, rfl, ?_, ?_⟩
  · intro hfin b hb n hn
    dsimp only
    rw [if_pos hfin, klRow_eq_fin_of_finite p q b n
      ((klAllFinite_iff p q).mp hfin b hb n hn)]
    rfl
  · intro hfalse b n
    dsimp only
    rw [hfalse]
    simp

/-- Witness for claim C4 at concrete non-negative arrays of equal shape. -/
theorem kl_div_characterization_witness :
    arrP.d0 = arrQ.d0 ∧ (∀ b n a, 0 ≤ arrP.data b n a) ∧
    (∀ b n a, 0 ≤ arrQ.data b n a) ∧
    ∃ out, kl_div arrP arrQ = Except.ok out ∧ out.d0 = bcastDim arrP.d0 arrQ.d0 := by
  have hp : ∀ b n a, (0 : ℝ) ≤ arrP.data b n a := by
    intro b n a
    unfold arrP
    dsimp only
    split <;> norm_num
  have hq : ∀ b n a, (0 : ℝ) ≤ arrQ.data b n a := by
    intro b n a
    unfold arrQ
    dsimp only
    split
    · split <;> norm_num
    · norm_num
  obtain ⟨out, hok, h0, -, -, -⟩ := kl_div_characterization arrP arrQ rfl rfl rfl hp hq
  exact ⟨rfl, hp, hq, out, hok, h0⟩

/-- The first row of `kl_div arrP arrQ`'s summed array is `+inf` (a
`p = 1 > 0` entry meets `q = 0`). -/
theorem klRow_arrPQ_zero : klRow arrP arrQ 0 0 = NpVal.pinf := by
  unfold klRow arrP arrQ
  norm_num [bcastDim, bsel, List.range_succ, klTerm, NpVal.add]

/-- The second row of `kl_div arrP arrQ`'s summed array is the finite
`ln 2`. -/
theorem klRow_arrPQ_one : klRow arrP arrQ 0 1 = NpVal.fin (Real.log 2) := by
  unfold klRow arrP arrQ
  norm_num [bcastDim, bsel, List.range_succ, klTerm, NpVal.add]

/-- Counterexample to claim C5 as stated: suppression of non-finite
divergence values is not per-element.  At `arrP`/`arrQ` the row at outer
index `(0, 1)` has the finite computed value `ln 2 ≠ 0`, yet because the
row at `(0, 0)` is `+inf`, `kl_div` returns 0 at `(0, 1)` as well: a
single degenerate element zeroes the finite values of other rows. -/
theorem kl_div_not_per_element :
    klRow arrP arrQ 0 1 = NpVal.fin (Real.log 2) ∧ Real.log 2 ≠ 0 ∧
    klRow arrP arrQ 0 0 = NpVal.pinf ∧
    ∃ out, kl_div arrP arrQ = Except.ok out ∧ out.data 0 1 = 0 := by
  have hAF : klAllFinite arrP arrQ = false := by
    rw [show klAllFinite arrP arrQ =
      (((klRow arrP arrQ 0 0).isFinite &&
        ((klRow arrP arrQ 0 1).isFinite && true)) && true) from rfl,
      klRow_arrPQ_zero]
    rfl
  refine ⟨klRow_arrPQ_one, (Real.log_pos (by norm_num)).ne', klRow_arrPQ_zero, ?_⟩
  refine ⟨_, rfl, ?_⟩
  show (if klAllFinite arrP arrQ then (klRow arrP arrQ 0 1).toReal else 0) = 0
  rw [hAF]
  simp

/-- Claim C5 (corrected): the non-finite fallback of `kl_div` is
tensor-level, not per-element — if any in-range row of the divergence is
non-finite, every entry of the returned array is zero, including entries
whose own computed value is finite. -/
theorem kl_div_global_zero_fallback (p q : Arr3) (out : Arr2) (b0 n0 : ℕ)
    (hok : kl_div p q = Except.ok out)
    (hb : b0 < bcastDim p.d0 q.d0) (hn : n0 < bcastDim p.d1 q.d1)
    (hnf : (klRow p q b0 n0).isFinite = false) :
    ∀ b n, out.data b n = 0 := by
  have hfalse : klAllFinite p q = false := by
    cases hbool : klAllFinite p q with
    | false => rfl
    | true =>
      have := (klAllFinite_iff p q).mp hbool b0 hb n0 hn
      rw [this] at hnf
      cases hnf
  unfold kl_div at hok
  split at hok
  · simp only [Except.ok.injEq] at hok
    intro b n
    rw [← hok]
    dsimp only
    rw [hfalse]
    simp
  · exact absurd hok (by simp)

/-- Witness for the amended claim C5 at the concrete input: the `+inf`
row at `(0, 0)` forces the whole returned tensor — including the finite
`(0, 1)` entry — to zero. -/
theorem kl_div_global_zero_fallback_witness :
    (klRow arrP arrQ 0 0).isFinite = false ∧ 0 < bcastDim arrP.d0 arrQ.d0 ∧
    0 < bcastDim arrP.d1 arrQ.d1 ∧
    ∃ out, kl_div arrP arrQ = Except.ok out ∧ ∀ b n, out.data b n = 0 := by
  have hnf : (klRow arrP arrQ 0 0).isFinite = false := by
    rw [klRow_arrPQ_zero]
    rfl
  obtain ⟨out, hok⟩ : ∃ out, kl_div arrP arrQ = Except.ok out := ⟨_, rfl⟩
  exact ⟨hnf, by norm_num [bcastDim, arrP, arrQ], by norm_num [bcastDim, arrP, arrQ],
    out, hok, kl_div_global_zero_fallback arrP arrQ out 0 0 hok
      (by norm_num [bcastDim, arrP, arrQ]) (by norm_num [bcastDim, arrP, arrQ]) hnf⟩

/-- Broadcast index selection is idempotent. -/
theorem bsel_idem (d i : ℕ) : bsel d (bsel d i) = bsel d i := by
  unfold bsel
  split <;> simp

/-- A `klTerm` with non-negative first argument whose second argument is
positive wherever the first is non-zero is finite. -/
theorem klTerm_isFinite_of (x y : ℝ) (hx : 0 ≤ x) (hy : x ≠ 0 → 0 < y) :
    (klTerm x y).isFinite = true := by
  unfold klTerm
  split_ifs with h1 h2 h3 h4
  · rfl
  · exact absurd h2 (ne_of_gt (hy h1))
  · exact absurd h2 (ne_of_gt (hy h1))
  · rfl
  · exact absurd (div_pos (lt_of_le_of_ne hx (Ne.symm h1)) (hy h1)) h4

/-- A KL row whose terms are all finite is finite. -/
theorem klRow_isFinite_of_terms (p q : Arr3) (b n : ℕ)
    (h : ∀ a, a < bcastDim p.d2 q.d2 →
      (klTerm (p.data (bsel p.d0 b) (bsel p.d1 n) (bsel p.d2 a))
        (q.data (bsel q.d0 b) (bsel q.d1 n) (bsel q.d2 a))).isFinite = true) :
    (klRow p q b n).isFinite = true := by
  unfold klRow
  rw [foldr_add_fin _ _ 0 h]
  rfl

/-- Gibbs' inequality for the zero-convention KL sum: if `f` sums to 1,
`g` is non-negative with sum at most 1, and `g` is positive wherever `f`
is non-zero, the KL sum is non-negative. -/
theorem sum_klValue_nonneg (f g : ℕ → ℝ) (A : ℕ)
    (hf : ∀ a, a < A → 0 ≤ f a) (hg : ∀ a, a < A → 0 ≤ g a)
    (hfg : ∀ a, a < A → f a ≠ 0 → 0 < g a)
    (hsf : ∑ a in Finset.range A, f a = 1)
    (hsg : ∑ a in Finset.range A, g a ≤ 1) :
    0 ≤ ∑ a in Finset.range A, klValue (f a) (g a) := by
  have hterm : ∀ a ∈ Finset.range A, f a - g a ≤ klValue (f a) (g a) := by
    intro a ha
    have ha' := Finset.mem_range.mp ha
    unfold klValue
    split_ifs with h0
    · rw [h0]
      simp [hg a ha']
    · have hfa : 0 < f a := lt_of_le_of_ne (hf a ha') (Ne.symm h0)
      have hga : 0 < g a := hfg a ha' h0
      have hlog := Real.log_le_sub_one_of_pos (div_pos hga hfa)
      have hswap : Real.log (f a / g a) = -Real.log (g a / f a) := by
        rw [Real.log_div (ne_of_gt hfa) (ne_of_gt hga),
          Real.log_div (ne_of_gt hga) (ne_of_gt hfa)]
        ring
      have h1 : 1 - g a / f a ≤ Real.log (f a / g a) := by
        rw [hswap]
        linarith
      have h2 : f a * (1 - g a / f a) ≤ f a * Real.log (f a / g a) :=
        mul_le_mul_of_nonneg_left h1 (le_of_lt hfa)
      have h3 : f a * (1 - g a / f a) = f a - g a := by
        field_simp
      linarith
  have hsum := Finset.sum_le_sum hterm
  rw [Finset.sum_sub_distrib, hsf] at hsum
  linarith

/-- Evaluation of `jsd_of` on two arrays of the same shape into its
explicit result. -/
theorem jsd_of_eval (d0 d1 d2 : ℕ) (P Q : ℕ → ℕ → ℕ → ℝ) :
    jsd_of ⟨d0, d1, d2, P⟩ ⟨d0, d1, d2, Q⟩ = Except.ok ⟨d0, d1, fun b n =>
      (1 / 2 : ℝ) * (if klAllFinite ⟨d0, d1, d2, P⟩
          ⟨d0, d1, d2, fun c m a => (1 / 2 : ℝ) *
            (P (bsel d0 c) (bsel d1 m) (bsel d2 a) +
             Q (bsel d0 c) (bsel d1 m) (bsel d2 a))⟩ = true then
          (klRow ⟨d0, d1, d2, P⟩
            ⟨d0, d1, d2, fun c m a => (1 / 2 : ℝ) *
              (P (bsel d0 c) (bsel d1 m) (bsel d2 a) +
               Q (bsel d0 c) (bsel d1 m) (bsel d2 a))⟩
            (bsel d0 b) (bsel d1 n)).toReal
        else 0) +
      (1 / 2 : ℝ) * (if klAllFinite ⟨d0, d1, d2, Q⟩
          ⟨d0, d1, d2, fun c m a => (1 / 2 : ℝ) *
            (P (bsel d0 c) (bsel d1 m) (bsel d2 a) +
             Q (bsel d0 c) (bsel d1 m) (bsel d2 a))⟩ = true then
          (klRow ⟨d0, d1, d2, Q⟩
            ⟨d0, d1, d2, fun c m a => (1 / 2 : ℝ) *
              (P (bsel d0 c) (bsel d1 m) (bsel d2 a) +
               Q (bsel d0 c) (bsel d1 m) (bsel d2 a))⟩
            (bsel d0 b) (bsel d1 n)).toReal
        else 0)⟩ := by
  have hb : Arr3.binop (fun x y => x + y) (⟨d0, d1, d2, P⟩ : Arr3) ⟨d0, d1, d2, Q⟩ =
      Except.ok ⟨d0, d1, d2, fun c m a =>
        P (bsel d0 c) (bsel d1 m) (bsel d2 a) + Q (bsel d0 c) (bsel d1 m) (bsel d2 a)⟩ := by
    unfold Arr3.binop
    rw [if_pos (by simp [bcastOk])]
    simp only [bcastDim, Nat.max_self]
  have hk1 : kl_div (⟨d0, d1, d2, P⟩ : Arr3)
      ⟨d0, d1, d2, fun c m a => (1 / 2 : ℝ) *
        (P (bsel d0 c) (bsel d1 m) (bsel d2 a) + Q (bsel d0 c) (bsel d1 m) (bsel d2 a))⟩ =
      Except.ok ⟨d0, d1, fun b n =>
        if klAllFinite ⟨d0, d1, d2, P⟩
            ⟨d0, d1, d2, fun c m a => (1 / 2 : ℝ) *
              (P (bsel d0 c) (bsel d1 m) (bsel d2 a) +
               Q (bsel d0 c) (bsel d1 m) (bsel d2 a))⟩ = true then
          (klRow ⟨d0, d1, d2, P⟩
            ⟨d0, d1, d2, fun c m a => (1 / 2 : ℝ) *
              (P (bsel d0 c) (bsel d1 m) (bsel d2 a) +
               Q (bsel d0 c) (bsel d1 m) (bsel d2 a))⟩ b n).toReal
        else 0⟩ := by
    unfold kl_div
    rw [if_pos (by simp [bcastOk])]
    simp only [bcastDim, Nat.max_self]
  have hk2 : kl_div (⟨d0, d1, d2, Q⟩ : Arr3)
      ⟨d0, d1, d2, fun c m a => (1 / 2 : ℝ) *
        (P (bsel d0 c) (bsel d1 m) (bsel d2 a) + Q (bsel d0 c) (bsel d1 m) (bsel d2 a))⟩ =
      Except.ok ⟨d0, d1, fun b n =>
        if klAllFinite ⟨d0, d1, d2, Q⟩
            ⟨d0, d1, d2, fun c m a => (1 / 2 : ℝ) *
              (P (bsel d0 c) (bsel d1 m) (bsel d2 a) +
               Q (bsel d0 c) (bsel d1 m) (bsel d2 a))⟩ = true then
          (klRow ⟨d0, d1, d2, Q⟩
            ⟨d0, d1, d2, fun c m a => (1 / 2 : ℝ) *
              (P (bsel d0 c) (bsel d1 m) (bsel d2 a) +
               Q (bsel d0 c) (bsel d1 m) (bsel d2 a))⟩ b n).toReal
        else 0⟩ := by
    unfold kl_div
    rw [if_pos (by simp [bcastOk])]
    simp only [bcastDim, Nat.max_self]
  unfold jsd_of
  rw [hb]
  simp only
  rw [hk1, hk2]
  simp only
  unfold Arr2.binop
  rw [if_pos (by simp [bcastOk])]
  simp only [bcastDim, Nat.max_self]

/-- For a distribution-row array `R` bounded by `P + Q` rowwise (with `P`,
`Q` distribution-row arrays), every KL row of `R` against the halved sum
`(P + Q) / 2` is a finite, non-negative real. -/
theorem klRow_mean_fin_nonneg (d0 d1 d2 : ℕ) (R P Q : ℕ → ℕ → ℕ → ℝ)
    (hR : ∀ b n a, 0 ≤ R b n a) (hP : ∀ b n a, 0 ≤ P b n a)
    (hQ : ∀ b n a, 0 ≤ Q b n a)
    (hRs : ∀ b n, ∑ a in Finset.range d2, R b n a = 1)
    (hPs : ∀ b n, ∑ a in Finset.range d2, P b n a = 1)
    (hQs : ∀ b n, ∑ a in Finset.range d2, Q b n a = 1)
    (hhalf : ∀ b n a, R b n a ≤ P b n a + Q b n a) :
    ∀ b n, ∃ S, klRow ⟨d0, d1, d2, R⟩
      ⟨d0, d1, d2, fun c m a => (1 / 2 : ℝ) *
        (P (bsel d0 c) (bsel d1 m) (bsel d2 a) + Q (bsel d0 c) (bsel d1 m) (bsel d2 a))⟩
      b n = NpVal.fin S ∧ 0 ≤ S := by
  intro b n
  have hfin : (klRow (⟨d0, d1, d2, R⟩ : Arr3)
      ⟨d0, d1, d2, fun c m a => (1 / 2 : ℝ) *
        (P (bsel d0 c) (bsel d1 m) (bsel d2 a) +
         Q (bsel d0 c) (bsel d1 m) (bsel d2 a))⟩ b n).isFinite = true := by
    apply klRow_isFinite_of_terms
    intro a ha
    dsimp only
    simp only [bsel_idem]
    apply klTerm_isFinite_of
    · exact hR _ _ _
    · intro hne
      have h1 : 0 < R (bsel d0 b) (bsel d1 n) (bsel d2 a) :=
        lt_of_le_of_ne (hR _ _ _) (Ne.symm hne)
      have h2 := hhalf (bsel d0 b) (bsel d1 n) (bsel d2 a)
      linarith
  refine ⟨_, klRow_eq_fin_of_finite _ _ b n hfin, ?_⟩
  dsimp only
  have hd : bcastDim d2 d2 = d2 := Nat.max_self d2
  rw [hd]
  have hsummand : ∀ a ∈ Finset.range d2,
      klValue (R (bsel d0 b) (bsel d1 n) (bsel d2 a))
        ((1 / 2 : ℝ) * (P (bsel d0 (bsel d0 b)) (bsel d1 (bsel d1 n)) (bsel d2 (bsel d2 a)) +
          Q (bsel d0 (bsel d0 b)) (bsel d1 (bsel d1 n)) (bsel d2 (bsel d2 a)))) =
      klValue (R (bsel d0 b) (bsel d1 n) a)
        ((1 / 2 : ℝ) * (P (bsel d0 b) (bsel d1 n) a + Q (bsel d0 b) (bsel d1 n) a)) := by
    intro a ha
    rw [bsel_idem, bsel_idem, bsel_idem, bsel_lt (Finset.mem_range.mp ha)]
  rw [Finset.sum_congr rfl hsummand]
  refine sum_klValue_nonneg _ _ d2 (fun a _ => hR _ _ _) ?_ ?_ (hRs _ _) ?_
  · intro a _
    have := hP (bsel d0 b) (bsel d1 n) a
    have := hQ (bsel d0 b) (bsel d1 n) a
    linarith
  · intro a _ hne
    have h1 : 0 < R (bsel d0 b) (bsel d1 n) a := lt_of_le_of_ne (hR _ _ _) (Ne.symm hne)
    have h2 := hhalf (bsel d0 b) (bsel d1 n) a
    linarith
  · have hsplit : ∑ a in Finset.range d2,
        (1 / 2 : ℝ) * (P (bsel d0 b) (bsel d1 n) a + Q (bsel d0 b) (bsel d1 n) a) =
        (1 / 2 : ℝ) * ((∑ a in Finset.range d2, P (bsel d0 b) (bsel d1 n) a) +
          ∑ a in Finset.range d2, Q (bsel d0 b) (bsel d1 n) a) := by
      rw [← Finset.mul_sum, Finset.sum_add_distrib]
    rw [hsplit, hPs, hQs]
    norm_num

/-- Claim C9: the `jsd` measure — `0.5 * kl_div(p, m) + 0.5 * kl_div(q, m)`
with `m = 0.5 * (p + q)` — is symmetric in its arguments, and on
identically shaped arrays of distribution rows it succeeds with a
non-negative value at every outer index. -/
theorem jsd_symmetric_nonneg (p q : Arr3)
    (hd0 : p.d0 = q.d0) (hd1 : p.d1 = q.d1) (hd2 : p.d2 = q.d2)
    (hp : ∀ b n a, 0 ≤ p.data b n a) (hq : ∀ b n a, 0 ≤ q.data b n a)
    (hps : ∀ b n, ∑ a in Finset.range p.d2, p.data b n a = 1)
    (hqs : ∀ b n, ∑ a in Finset.range q.d2, q.data b n a = 1) :
    jsd_of p q = jsd_of q p ∧
    ∃ out, jsd_of p q = Except.ok out ∧ ∀ b n, 0 ≤ out.data b n := by
  obtain ⟨d0, d1, d2, P⟩ := p
  obtain ⟨e0, e1, e2, Q⟩ := q
  dsimp only at hd0 hd1 hd2 hp hq hps hqs
  subst hd0
  subst hd1
  subst hd2
  have hkeyP := klRow_mean_fin_nonneg d0 d1 d2 P P Q hp hp hq hps hps hqs
    (fun b n a => by have := hq b n a; linarith)
  have hkeyQ := klRow_mean_fin_nonneg d0 d1 d2 Q P Q hq hp hq hqs hps hqs
    (fun b n a => by have := hp b n a; linarith)
  have hAFP : klAllFinite ⟨d0, d1, d2, P⟩
      ⟨d0, d1, d2, fun c m a => (1 / 2 : ℝ) *
        (P (bsel d0 c) (bsel d1 m) (bsel d2 a) +
         Q (bsel d0 c) (bsel d1 m) (bsel d2 a))⟩ = true := by
    refine (klAllFinite_iff _ _).mpr fun b _ n _ => ?_
    obtain ⟨S, hS, -⟩ := hkeyP b n
    rw [hS]
    rfl
  have hAFQ : klAllFinite ⟨d0, d1, d2, Q⟩
      ⟨d0, d1, d2, fun c m a => (1 / 2 : ℝ) *
        (P (bsel d0 c) (bsel d1 m) (bsel d2 a) +
         Q (bsel d0 c) (bsel d1 m) (bsel d2 a))⟩ = true := by
    refine (klAllFinite_iff _ _).mpr fun b _ n _ => ?_
    obtain ⟨S, hS, -⟩ := hkeyQ b n
    rw [hS]
    rfl
  constructor
  · rw [jsd_of_eval d0 d1 d2 P Q, jsd_of_eval d0 d1 d2 Q P]
    have hMean : (⟨d0, d1, d2, fun c m a => (1 / 2 : ℝ) *
        (Q (bsel d0 c) (bsel d1 m) (bsel d2 a) +
         P (bsel d0 c) (bsel d1 m) (bsel d2 a))⟩ : Arr3) =
        ⟨d0, d1, d2, fun c m a => (1 / 2 : ℝ) *
          (P (bsel d0 c) (bsel d1 m) (bsel d2 a) +
           Q (bsel d0 c) (bsel d1 m) (bsel d2 a))⟩ := by
      congr 1
      funext c m a
      ring
    rw [hMean]
    congr 1
    congr 1
    funext b n
    ring
  · refine ⟨_, jsd_of_eval d0 d1 d2 P Q, ?_⟩
    intro b n
    dsimp only
    rw [if_pos hAFP, if_pos hAFQ]
    obtain ⟨S1, hS1, hS1n⟩ := hkeyP (bsel d0 b) (bsel d1 n)
    obtain ⟨S2, hS2, hS2n⟩ := hkeyQ (bsel d0 b) (bsel d1 n)
    rw [hS1, hS2]
    show 0 ≤ (1 / 2 : ℝ) * S1 + (1 / 2 : ℝ) * S2
    linarith

/-- Witness for claim C9 at concrete distribution arrays. -/
theorem jsd_symmetric_nonneg_witness :
    distP.d0 = distQ.d0 ∧
    (∀ b n, ∑ a in Finset.range distP.d2, distP.data b n a = 1) ∧
    (∀ b n, ∑ a in Finset.range distQ.d2, distQ.data b n a = 1) ∧
    jsd_of distP distQ = jsd_of distQ distP ∧
    ∃ out, jsd_of distP distQ = Except.ok out ∧ ∀ b n, 0 ≤ out.data b n := by
  have hp : ∀ b n a, (0 : ℝ) ≤ distP.data b n a := by
    intro b n a
    unfold distP
    dsimp only
    split <;> norm_num
  have hq : ∀ b n a, (0 : ℝ) ≤ distQ.data b n a := by
    intro b n a
    unfold distQ
    dsimp only
    norm_num
  have hps : ∀ b n, ∑ a in Finset.range distP.d2, distP.data b n a = 1 := by
    intro b n
    unfold distP
    dsimp only
    rw [Finset.sum_range_succ, Finset.sum_range_succ, Finset.sum_range_zero]
    norm_num
  have hqs : ∀ b n, ∑ a in Finset.range distQ.d2, distQ.data b n a = 1 := by
    intro b n
    unfold distQ
    dsimp only
    rw [Finset.sum_range_succ, Finset.sum_range_succ, Finset.sum_range_zero]
    norm_num
  obtain ⟨hsym, hout⟩ := jsd_symmetric_nonneg distP distQ rfl rfl rfl hp hq hps hqs
  exact ⟨rfl, hps, hqs, hsym, hout⟩

/-- Claim C1 (refuted; evidence for the marginalization defect): on the
concrete one-step trajectory `trajA` (own action distribution
`(1/4, 3/4)`, counterfactual rows `(1/2, 1/2)` and `(1/4, 3/4)`), the
source function returns `(1/6, 5/6)` — the normalization of the
action-summed counterfactual tensor multiplied elementwise (along the
other agent's action axis) by the tiled own-action probabilities — while
the claimed own-action-weighted marginalization yields `(5/16, 11/16)`.
Moreover for a two-step trajectory with one other agent the result has
shape `(2, 2, 2)` instead of the claimed `[B, N, A] = (2, 1, 2)`, because
`np.tile(action_probs, [1, N, 1])` has shape `(1, N*B, A)` and broadcasts
against the `[B, N, A]` summed tensor. -/
theorem marginalize_tile_bug :
    ∃ m, marginalize_predictions_over_own_actions policyKl trajA = Except.ok m ∧
      (m.d0, m.d1, m.d2) = (1, 1, 2) ∧
      m.data 0 0 0 = 1 / 6 ∧ m.data 0 0 1 = 5 / 6 ∧
      (marginal_spec_formula policyKl trajA).data 0 0 0 = 5 / 16 ∧
      (marginal_spec_formula policyKl trajA).data 0 0 1 = 11 / 16 ∧
      (1 / 6 : ℝ) ≠ 5 / 16 ∧
      ∃ m2, marginalize_predictions_over_own_actions policyKl trajB = Except.ok m2 ∧
        trajB.obs.length = 2 ∧ policyKl.num_other_agents = 1 ∧
        (m2.d0, m2.d1, m2.d2) = (2, 2, 2) := by
  refine ⟨_, rfl, rfl, ?_, ?_, ?_, ?_, by norm_num, _, rfl, rfl, rfl, rfl⟩
  · norm_num [normalizeLast3, normalizeLast2, softmaxLast2, softmaxLast4, bcastDim,
      bsel, policyKl, setupMixins, configKl, trajA, Finset.sum_range_succ,
      Finset.sum_range_zero, Real.exp_zero, Real.exp_log]
  · norm_num [normalizeLast3, normalizeLast2, softmaxLast2, softmaxLast4, bcastDim,
      bsel, policyKl, setupMixins, configKl, trajA, Finset.sum_range_succ,
      Finset.sum_range_zero, Real.exp_zero, Real.exp_log]
  · norm_num [marginal_spec_formula, normalizeLast3, normalizeLast2, softmaxLast2,
      softmaxLast4, policyKl, setupMixins, configKl, trajA, Finset.sum_range_succ,
      Finset.sum_range_zero, Real.exp_zero, Real.exp_log]
  · norm_num [marginal_spec_formula, normalizeLast3, normalizeLast2, softmaxLast2,
      softmaxLast4, policyKl, setupMixins, configKl, trajA, Finset.sum_range_succ,
      Finset.sum_range_zero, Real.exp_zero, Real.exp_log]
